import Mathlib

/-!
Verification of the tf2-price currency core (`src/helpers.rs`).

The development embeds the arithmetic core of the repository:

* the rounding engine `round_metal` over the scaled integer metal value,
  both as ideal integer arithmetic (`round_metal`) and as two's-complement
  32-bit arithmetic (`round_metal_i32`, the release-mode `i32` semantics);
* the float conversion helpers `get_metal_float` / `get_metal_from_float`
  over an exact model of IEEE-754 binary32 values (`F32`), where a finite
  float is represented by an integer significand and a power-of-two
  exponent and every operation rounds the exact rational result to
  nearest, ties to even;
* the free-form string parser `parse_from_string` over lists of
  characters, with a fuel-based splitter mirroring Rust's `str::split`;
* the serde adapter `metal_deserializer`.
-/

/-- Modelled from the spec: the scale constant `ONE_REF` lives in the
crate's `constants.rs`, which is not part of the sources at hand.  The
spec fixes it as the number of integer metal units in one refined; the
doctests in `helpers.rs` (`get_metal_float(6) == 0.33` and
`get_metal_from_float(0.33) == 6`) pin its value to 18: `6/R` truncated
to two decimals equals `0.33` only for `R = 18`. -/
def ONE_REF : Int := 18

/-- Modelled from the spec: one scrap is the smallest two-unit
denomination (one ninth of a refined, hence 2 integer units). -/
def ONE_SCRAP : Int := 2

/-- Modelled from the spec: the `scrap!` macro of the repository scales a
scrap count to integer metal units. -/
def scrap (n : Int) : Int := n * ONE_SCRAP

/-- Modelled from the spec: the singular key symbol recognized by the
parser (`constants.rs` is not among the sources; the spec's grammar and
examples use `key`). -/
def KEY_SYMBOL : List Char := "key".data

/-- Modelled from the spec: the plural key symbol recognized by the
parser. -/
def KEYS_SYMBOL : List Char := "keys".data

/-- Modelled from the spec: the metal symbol recognized by the parser
(the spec's examples use `ref`). -/
def METAL_SYMBOL : List Char := "ref".data

/-- The rounding policy selector.  The five named variants appear in the
match arms of `round_metal` in `helpers.rs`; the identity variant `none`
is modelled from the spec ("5 policies + identity/no-op"), reached in the
source through the `_ => metal` catch-all. -/
inductive Rounding
  | none
  | upScrap
  | downScrap
  | refined
  | upRefined
  | downRefined
deriving DecidableEq

/-!  ## An exact model of IEEE-754 binary32 (`f32`)

A finite `f32` is a dyadic rational; we represent it as
`finite m exp` denoting the real number `m * 2 ^ exp`.  Rounding a
positive rational `a/b * 2^e` to 24 significand bits with
round-to-nearest, ties-to-even is implemented with plain natural-number
arithmetic.  Outputs are canonical: a nonzero finite result has
`|m| ∈ [2^23, 2^24)` unless the exponent is clamped at the subnormal
minimum `-149`, zero is `finite 0 0`, so structural equality coincides
with value equality.  The model conflates `-0.0` with `0.0` and carries
a single `nan`; neither distinction is observable in any claim. -/

inductive F32
  | finite (m : Int) (exp : Int)
  | inf (neg : Bool)
  | nan
deriving DecidableEq

/-- Fuel-driven floor of the base-2 logarithm (the fuel argument only
bounds the recursion depth; `natLog2 n` is exact for `n > 0`). -/
def natLog2Go : Nat → Nat → Nat
  | 0, _ => 0
  | fuel + 1, n => if n ≤ 1 then 0 else natLog2Go fuel (n / 2) + 1

def natLog2 (n : Nat) : Nat := natLog2Go n n

/-- Round `n / d` (with `d > 0`) to the nearest natural number, ties to
even. -/
def rneNat (n d : Nat) : Nat :=
  let q := n / d
  let r := n % d
  if 2 * r < d then q
  else if d < 2 * r then q + 1
  else if q % 2 = 0 then q else q + 1

/-- Round the positive value `(a / b) * 2 ^ e2` (`a, b > 0`) to the
nearest binary32 value, ties to even; `neg` is the sign of the final
result. -/
def roundFracPos (a b : Nat) (e2 : Int) (neg : Bool) : F32 :=
  let e0 : Int := (natLog2 a : Int) - (natLog2 b : Int) + e2
  let f : Int :=
    if b * 2 ^ (e0 - e2).toNat ≤ a * 2 ^ (e2 - e0).toNat then e0 else e0 - 1
  let exp : Int := max (f - 23) (-149)
  let m : Nat := rneNat (a * 2 ^ (e2 - exp).toNat) (b * 2 ^ (exp - e2).toNat)
  let mc : Nat := if m = 16777216 then 8388608 else m
  let expc : Int := if m = 16777216 then exp + 1 else exp
  if mc = 0 then .finite 0 0
  else if 105 ≤ expc then .inf neg
  else .finite (if neg then -(mc : Int) else (mc : Int)) expc

/-- Round the exact rational `(num / den) * 2 ^ e2` (`den ≠ 0`) to the
nearest binary32 value. -/
def roundFrac (num den : Int) (e2 : Int) : F32 :=
  if num = 0 then .finite 0 0
  else roundFracPos num.natAbs den.natAbs e2
    (Bool.xor (decide (num < 0)) (decide (den < 0)))

/-- The `as f32` conversion from an integer (rounds to nearest, ties to
even, as in Rust). -/
def ofInt (n : Int) : F32 := roundFrac n 1 0

/-- Truncation of `m * 2 ^ e` toward zero to an integer. -/
def truncToInt (m : Int) (e : Int) : Int :=
  if 0 ≤ e then m * 2 ^ e.toNat
  else
    let q : Nat := m.natAbs / 2 ^ (-e).toNat
    if m < 0 then -(q : Int) else (q : Int)

/-- `f32::round` of `m * 2 ^ e`: nearest integer, halfway cases away from
zero. -/
def halfAwayToInt (m : Int) (e : Int) : Int :=
  if 0 ≤ e then m * 2 ^ e.toNat
  else
    let k : Nat := 2 ^ (-e).toNat
    let a : Nat := m.natAbs
    let q2 : Nat := if k ≤ 2 * (a % k) then a / k + 1 else a / k
    if m < 0 then -(q2 : Int) else (q2 : Int)

/-- `f32` multiplication (exact product, then round). -/
def F32.mul : F32 → F32 → F32
  | .finite m1 e1, .finite m2 e2 => roundFrac (m1 * m2) 1 (e1 + e2)
  | .nan, _ => .nan
  | _, .nan => .nan
  | .inf s, .inf t => .inf (Bool.xor s t)
  | .inf s, .finite m _ =>
    if m = 0 then .nan else .inf (Bool.xor s (decide (m < 0)))
  | .finite m _, .inf t =>
    if m = 0 then .nan else .inf (Bool.xor t (decide (m < 0)))

/-- `f32` division (exact quotient, then round). -/
def F32.div : F32 → F32 → F32
  | .finite m1 e1, .finite m2 e2 =>
    if m2 = 0 then (if m1 = 0 then .nan else .inf (decide (m1 < 0)))
    else roundFrac m1 m2 (e1 - e2)
  | .nan, _ => .nan
  | _, .nan => .nan
  | .inf _, .inf _ => .nan
  | .inf s, .finite m _ => .inf (Bool.xor s (decide (m < 0)))
  | .finite _ _, .inf _ => .finite 0 0

/-- `f32::trunc`. -/
def F32.trunc : F32 → F32
  | .finite m e => roundFrac (truncToInt m e) 1 0
  | x => x

/-- `f32::round`. -/
def F32.roundHalfAway : F32 → F32
  | .finite m e => roundFrac (halfAwayToInt m e) 1 0
  | x => x

/-- The saturating `as i32` cast from `f32` (truncates toward zero,
clamps to the `i32` range, `NaN` maps to 0). -/
def F32.toI32 : F32 → Int
  | .nan => 0
  | .inf s => if s then -2147483648 else 2147483647
  | .finite m e =>
    let t := truncToInt m e
    if t < -2147483648 then -2147483648
    else if 2147483647 < t then 2147483647
    else t

/-!  ## Float conversion helpers (`helpers.rs` lines 55-68) -/

/-- `get_metal_float` from `helpers.rs`:
`f32::trunc((value as f32 / (ONE_REF as f32)) * 100.0) / 100.0`. -/
def get_metal_float (value : Int) : F32 :=
  F32.div
    (F32.trunc (F32.mul (F32.div (ofInt value) (ofInt ONE_REF)) (roundFrac 100 1 0)))
    (roundFrac 100 1 0)

/-- `get_metal_from_float` from `helpers.rs`:
`(value * (ONE_REF as f32)).round() as i32`. -/
def get_metal_from_float (value : F32) : Int :=
  F32.toI32 (F32.roundHalfAway (F32.mul value (ofInt ONE_REF)))

/-- `metal_deserializer` from `helpers.rs`: deserialize an `f32`
(modelled as a given `Except` result of the underlying float decode),
then `(float * (ONE_REF as f32)).round() as i32`; a decode error is
returned as-is by the `?` operator. -/
def metal_deserializer {E : Type} (deserialized : Except E F32) : Except E Int :=
  match deserialized with
  | .error e => .error e
  | .ok float => .ok (F32.toI32 (F32.roundHalfAway (F32.mul float (ofInt ONE_REF))))

/-!  ## String splitting and numeric literal parsing -/

/-- Fuel-driven splitter on a nonempty separator, mirroring Rust's
`str::split` on a literal separator (leftmost-first, non-overlapping
matches; the empty input yields one empty piece).  The fuel only bounds
the recursion; `splitOnCharList` supplies enough for the whole input. -/
def splitGo (sep : List Char) : Nat → List Char → List Char → List (List Char)
  | 0, l, acc => [acc.reverse ++ l]
  | _ + 1, [], acc => [acc.reverse]
  | fuel + 1, c :: rest, acc =>
    if sep.isPrefixOf (c :: rest) then
      acc.reverse :: splitGo sep fuel (List.drop (sep.length - 1) rest) []
    else
      splitGo sep fuel rest (c :: acc)

def splitOnCharList (sep : List Char) (l : List Char) : List (List Char) :=
  splitGo sep (l.length + 1) l []

/-- Numeric value of a list of ASCII digits. -/
def digitsToNat (l : List Char) : Nat :=
  l.foldl (fun a c => a * 10 + (c.toNat - 48)) 0

/-- Modelled from Rust's `i32::from_str` (the `FromStr` instance the
tests instantiate the generic key type with): optional sign, one or more
ASCII digits, value within the `i32` range. -/
def parse_i32 (s : List Char) : Option Int :=
  let signDigits : Bool × List Char :=
    match s with
    | c :: rest =>
      if c = ('-') then (true, rest)
      else if c = ('+') then (false, rest)
      else (false, s)
    | [] => (false, [])
  let neg := signDigits.1
  let digits := signDigits.2
  if digits = [] ∨ ¬ digits.all Char.isDigit then none
  else
    let v : Int := if neg then -(digitsToNat digits : Int) else (digitsToNat digits : Int)
    if v < -2147483648 ∨ 2147483647 < v then none else some v

/-- Modelled from Rust's `f32::from_str`, restricted to the decimal
float-literal grammar the spec's parser grammar uses (optional sign,
digits, optional fraction): the count token of a metal element. -/
def parse_f32 (s : List Char) : Option F32 :=
  let signDigits : Bool × List Char :=
    match s with
    | c :: rest =>
      if c = ('-') then (true, rest)
      else if c = ('+') then (false, rest)
      else (false, s)
    | [] => (false, [])
  let neg := signDigits.1
  let body := signDigits.2
  match splitOnCharList (".".data) body with
  | [ip] =>
    if ip ≠ [] ∧ ip.all Char.isDigit then
      some (roundFrac (if neg then -(digitsToNat ip : Int) else (digitsToNat ip : Int)) 1 0)
    else none
  | [ip, fp] =>
    if (ip ≠ [] ∨ fp ≠ []) ∧ ip.all Char.isDigit ∧ fp.all Char.isDigit then
      some (roundFrac
        (if neg then -((digitsToNat ip * 10 ^ fp.length + digitsToNat fp : Nat) : Int)
         else ((digitsToNat ip * 10 ^ fp.length + digitsToNat fp : Nat) : Int))
        ((10 ^ fp.length : Nat) : Int) 0)
    else none
  | _ => none

/-!  ## The string parser (`helpers.rs` lines 70-125) -/

/-- The four distinct error values `parse_from_string` can return: the
imported constant `INVALID_CURRENCIES_FORMAT` (returned both at line 88,
when an element does not split into exactly two space-separated tokens,
and at line 115, when the symbol token matches no recognized
denomination), and the three string literals `"Error parsing key
count"`, `"Error parsing metal count"`, `"No currencies could be parsed
from string"`. -/
inductive ParseError
  | invalidCurrenciesFormat
  | errorParsingKeyCount
  | errorParsingMetalCount
  | noCurrenciesParsed
deriving DecidableEq

/-- One iteration of the parser's `for` loop: split the element on
single spaces, require exactly two tokens, dispatch on the symbol token,
and overwrite the corresponding accumulator. -/
def processElement {T : Type} (fromStr : List Char → Option T)
    (keys : T) (metal : Int) (element : List Char) : Except ParseError (T × Int) :=
  match splitOnCharList (" ".data) element with
  | [count_str, currency_name] =>
    if currency_name = KEY_SYMBOL ∨ currency_name = KEYS_SYMBOL then
      match fromStr count_str with
      | some count => .ok (count, metal)
      | Option.none => .error .errorParsingKeyCount
    else if currency_name = METAL_SYMBOL then
      match parse_f32 count_str with
      | some count => .ok (keys, get_metal_from_float count)
      | Option.none => .error .errorParsingMetalCount
    else .error .invalidCurrenciesFormat
  | _ => .error .invalidCurrenciesFormat

/-- The parser's loop over the `", "`-separated elements. -/
def parseElems {T : Type} (fromStr : List Char → Option T)
    (keys : T) (metal : Int) : List (List Char) → Except ParseError (T × Int)
  | [] => .ok (keys, metal)
  | e :: rest =>
    match processElement fromStr keys metal e with
    | .ok (k, m) => parseElems fromStr k m rest
    | .error err => .error err

/-- `parse_from_string` from `helpers.rs`, generic over the key type `T`
(`Default` is passed as the `default` value, `FromStr` as `fromStr`,
`PartialEq` as the `DecidableEq` instance): split on `", "`, run the
loop, and reject the result if both accumulators still hold their
defaults. -/
def parse_from_string {T : Type} [DecidableEq T] (default : T)
    (fromStr : List Char → Option T) (string : String) : Except ParseError (T × Int) :=
  match parseElems fromStr default 0 (splitOnCharList (", ".data) string.data) with
  | .ok (keys, metal) =>
    if keys = default ∧ metal = 0 then .error .noCurrenciesParsed
    else .ok (keys, metal)
  | .error err => .error err

/-- The value a single element contributes to the metal accumulator, if
any: defined only for a well-shaped element whose symbol is the metal
symbol and whose count parses as a float. -/
def elemMetal (e : List Char) : Option Int :=
  match splitOnCharList (" ".data) e with
  | [count_str, currency_name] =>
    if currency_name = METAL_SYMBOL then (parse_f32 count_str).map get_metal_from_float
    else Option.none
  | _ => Option.none

/-- The value a single element contributes to the key accumulator, if
any: defined only for a well-shaped element whose symbol is the key
symbol (singular or plural) and whose count parses as `T`. -/
def elemKey {T : Type} (fromStr : List Char → Option T) (e : List Char) : Option T :=
  match splitOnCharList (" ".data) e with
  | [count_str, currency_name] =>
    if currency_name = KEY_SYMBOL ∨ currency_name = KEYS_SYMBOL then fromStr count_str
    else Option.none
  | _ => Option.none

/-!  ## The rounding engine (`helpers.rs` lines 127-176) -/

/-- `round_metal` from `helpers.rs`, read over unbounded integers (the
ideal semantics of the `i32` program away from overflow; `Int.tmod` and
`Int.tdiv` are Rust's truncating `%` and `/`).  The `upScrap` and
`downScrap` match guards and the `_ => metal` catch-all of the source
are rendered as conditionals inside the corresponding arms. -/
def round_metal (metal : Int) (rounding : Rounding) : Int :=
  if metal = 0 then metal
  else
    match rounding with
    | .upScrap => if Int.tmod metal 2 ≠ 0 then metal + 1 else metal
    | .downScrap => if Int.tmod metal 2 ≠ 0 then metal - 1 else metal
    | .refined =>
      let value := metal + Int.tdiv ONE_REF 2
      value - Int.tmod value ONE_REF
    | .upRefined =>
      let remainder := Int.tmod metal ONE_REF
      if remainder ≠ 0 then
        if 0 < metal then metal - (remainder + -ONE_REF) else metal - remainder
      else metal
    | .downRefined =>
      let remainder := Int.tmod metal ONE_REF
      if remainder ≠ 0 then
        if 0 < metal then metal - remainder else metal - (remainder + ONE_REF)
      else metal
    | .none => metal

/-- Reduction of an integer to the two's-complement `i32` range, the
wrapping semantics of release-mode Rust arithmetic. -/
def wrap32 (n : Int) : Int := Int.emod (n + 2147483648) 4294967296 - 2147483648

/-- `round_metal` with every `i32` addition and subtraction performed in
two's-complement 32-bit arithmetic (`%` on values already in range
yields in-range results and needs no reduction). -/
def round_metal_i32 (metal : Int) (rounding : Rounding) : Int :=
  if metal = 0 then metal
  else
    match rounding with
    | .upScrap => if Int.tmod metal 2 ≠ 0 then wrap32 (metal + 1) else metal
    | .downScrap => if Int.tmod metal 2 ≠ 0 then wrap32 (metal - 1) else metal
    | .refined =>
      let value := wrap32 (metal + Int.tdiv ONE_REF 2)
      wrap32 (value - Int.tmod value ONE_REF)
    | .upRefined =>
      let remainder := Int.tmod metal ONE_REF
      if remainder ≠ 0 then
        if 0 < metal then wrap32 (metal - wrap32 (remainder + -ONE_REF))
        else wrap32 (metal - remainder)
      else metal
    | .downRefined =>
      let remainder := Int.tmod metal ONE_REF
      if remainder ≠ 0 then
        if 0 < metal then wrap32 (metal - remainder)
        else wrap32 (metal - wrap32 (remainder + ONE_REF))
      else metal
    | .none => metal

deriving instance DecidableEq for Except

/-!  ## Arithmetic helpers for truncating division -/

theorem neg_tmod_left (a b : ℤ) : Int.tmod (-a) b = -(Int.tmod a b) := by
  rw [Int.tmod_def, Int.tmod_def, Int.neg_tdiv]; ring

/-- Decomposition and bounds for Rust's truncating remainder. -/
theorem tmod_facts (a b : ℤ) (hb : 0 < b) :
    Int.tmod a b + b * Int.tdiv a b = a ∧ Int.tmod a b < b ∧ -b < Int.tmod a b ∧
    (0 ≤ a → 0 ≤ Int.tmod a b) ∧ (a ≤ 0 → Int.tmod a b ≤ 0) := by
  refine ⟨Int.tmod_add_tdiv a b, Int.tmod_lt_of_pos a hb, ?_, fun ha => Int.tmod_nonneg b ha, ?_⟩
  · rcases le_or_lt 0 a with ha | ha
    · have := Int.tmod_nonneg b ha; omega
    · have h1 := neg_tmod_left (-a) b
      rw [neg_neg] at h1
      have h2 := Int.tmod_lt_of_pos (-a) hb
      omega
  · intro ha
    have h1 := neg_tmod_left (-a) b
    rw [neg_neg] at h1
    have h2 := Int.tmod_nonneg (a := -a) b (by omega)
    omega

/-!  ## Basic facts about the rounding engine -/

theorem round_metal_zero (r : Rounding) : round_metal 0 r = 0 := by
  simp [round_metal]

/-- Even metal values are fixed points of the up-scrap policy. -/
theorem upScrap_fix (x : ℤ) (hx : Int.tmod x 2 = 0) : round_metal x Rounding.upScrap = x := by
  by_cases h0 : x = 0
  · subst h0; simp [round_metal]
  · simp [round_metal, h0, hx]

/-- Even metal values are fixed points of the down-scrap policy. -/
theorem downScrap_fix (x : ℤ) (hx : Int.tmod x 2 = 0) : round_metal x Rounding.downScrap = x := by
  by_cases h0 : x = 0
  · subst h0; simp [round_metal]
  · simp [round_metal, h0, hx]

/-- Multiples of `ONE_REF` are fixed points of the up-refined policy. -/
theorem upRefined_fix (x : ℤ) (hx : Int.tmod x 18 = 0) : round_metal x Rounding.upRefined = x := by
  by_cases h0 : x = 0
  · subst h0; simp [round_metal]
  · simp [round_metal, h0, ONE_REF, hx]

/-- Multiples of `ONE_REF` are fixed points of the down-refined policy. -/
theorem downRefined_fix (x : ℤ) (hx : Int.tmod x 18 = 0) :
    round_metal x Rounding.downRefined = x := by
  by_cases h0 : x = 0
  · subst h0; simp [round_metal]
  · simp [round_metal, h0, ONE_REF, hx]

/-- Closed form of the round-to-nearest-refined policy: add half a
refined, then truncate (toward zero) to a multiple of 18. -/
theorem refined_char (m : ℤ) : round_metal m Rounding.refined = 18 * Int.tdiv (m + 9) 18 := by
  by_cases h0 : m = 0
  · subst h0; decide
  · have h9 : Int.tdiv (18 : ℤ) 2 = 9 := by decide
    simp only [round_metal, ONE_REF, h9, if_neg h0]
    have := Int.tmod_add_tdiv (m + 9) 18
    omega

/-- C7: for every integer metal value `m`, the result of the `Refined`
policy is a multiple of `ONE_REF` — adding half of `ONE_REF` and then
subtracting the truncating remainder always lands on a refined
boundary. -/
theorem refined_rounding_lands_on_boundary (m : ℤ) :
    ONE_REF ∣ round_metal m Rounding.refined := by
  rw [refined_char]
  show (18 : ℤ) ∣ 18 * Int.tdiv (m + 9) 18
  exact ⟨Int.tdiv (m + 9) 18, rfl⟩

/-- C6: when `m` has a nonzero remainder modulo `ONE_REF`, `UpRefined`
returns the next higher multiple of `ONE_REF` for positive `m`
(`ONE_REF * (m.tdiv ONE_REF + 1)`) and rounds toward zero for negative
`m` (`ONE_REF * m.tdiv ONE_REF`, the truncated quotient); `DownRefined`
returns the next lower multiple for positive `m` and the next
more-negative multiple for negative `m`; when the remainder is zero both
policies return `m` unchanged. -/
theorem up_down_refined_rounding_characterization (m : ℤ) :
    (Int.tmod m ONE_REF ≠ 0 →
      (0 < m → round_metal m Rounding.upRefined = ONE_REF * (Int.tdiv m ONE_REF + 1)) ∧
      (m < 0 → round_metal m Rounding.upRefined = ONE_REF * Int.tdiv m ONE_REF) ∧
      (0 < m → round_metal m Rounding.downRefined = ONE_REF * Int.tdiv m ONE_REF) ∧
      (m < 0 → round_metal m Rounding.downRefined = ONE_REF * (Int.tdiv m ONE_REF - 1))) ∧
    (Int.tmod m ONE_REF = 0 →
      round_metal m Rounding.upRefined = m ∧ round_metal m Rounding.downRefined = m) := by
  constructor
  · intro hr
    have hr18 : Int.tmod m 18 ≠ 0 := by simpa [ONE_REF] using hr
    have h0 : m ≠ 0 := by rintro rfl; simp at hr18
    obtain ⟨hd, hlt, hgt, hpos, hneg⟩ := tmod_facts m 18 (by norm_num)
    refine ⟨fun hp => ?_, fun hn => ?_, fun hp => ?_, fun hn => ?_⟩
    · simp only [round_metal, ONE_REF, if_neg h0]
      simp only [hr18, if_pos hp, ne_eq, not_false_eq_true, if_true]
      omega
    · simp only [round_metal, ONE_REF, if_neg h0]
      simp only [hr18, ne_eq, not_false_eq_true, if_true, if_neg (by omega : ¬ 0 < m)]
      omega
    · simp only [round_metal, ONE_REF, if_neg h0]
      simp only [hr18, if_pos hp, ne_eq, not_false_eq_true, if_true]
      omega
    · simp only [round_metal, ONE_REF, if_neg h0]
      simp only [hr18, ne_eq, not_false_eq_true, if_true, if_neg (by omega : ¬ 0 < m)]
      omega
  · intro hr
    have hr18 : Int.tmod m 18 = 0 := by simpa [ONE_REF] using hr
    exact ⟨upRefined_fix m hr18, downRefined_fix m hr18⟩

/-- Witness for C6 at `m = 5`: the hypothesis `tmod 5 18 ≠ 0` holds and
`UpRefined` rounds 5 up to 18. -/
theorem up_down_refined_witness :
    Int.tmod 5 ONE_REF ≠ 0 ∧
      round_metal 5 Rounding.upRefined = ONE_REF * (Int.tdiv 5 ONE_REF + 1) :=
  ⟨by decide, ((up_down_refined_rounding_characterization 5).1 (by decide)).1 (by decide)⟩

/-- C1 (counterexample): the claimed idempotence fails for the `Refined`
policy at `m = -27`: `round_metal (-27) Refined = -18`, but rounding
`-18` again gives `0` (Rust's truncating `%` makes the negative multiple
`-18` a non-fixed point). -/
theorem refined_round_not_idempotent_at_neg27 :
    ¬ (round_metal (round_metal (-27) Rounding.refined) Rounding.refined =
        round_metal (-27) Rounding.refined) := by decide

/-- C1 (amended): `round_metal` is idempotent for every policy other
than `Refined` at every integer metal value, and for the `Refined`
policy at every `m ≥ -26` (exactly the inputs whose rounded value is not
a negative multiple of `ONE_REF`). -/
theorem round_metal_idempotent_away_from_negative_refined (m : ℤ) (r : Rounding)
    (h : r ≠ Rounding.refined ∨ -26 ≤ m) :
    round_metal (round_metal m r) r = round_metal m r := by
  cases r with
  | none => simp [round_metal]
  | upScrap =>
    by_cases h0 : m = 0
    · subst h0; simp [round_metal]
    · by_cases hr : Int.tmod m 2 = 0
      · rw [upScrap_fix m hr]; exact upScrap_fix m hr
      · have hin : round_metal m Rounding.upScrap = m + 1 := by
          simp [round_metal, h0, hr]
        rw [hin]
        apply upScrap_fix
        obtain ⟨hd, hlt, hgt, _, _⟩ := tmod_facts m 2 (by norm_num)
        exact Int.tmod_eq_zero_of_dvd (by omega)
  | downScrap =>
    by_cases h0 : m = 0
    · subst h0; simp [round_metal]
    · by_cases hr : Int.tmod m 2 = 0
      · rw [downScrap_fix m hr]; exact downScrap_fix m hr
      · have hin : round_metal m Rounding.downScrap = m - 1 := by
          simp [round_metal, h0, hr]
        rw [hin]
        apply downScrap_fix
        obtain ⟨hd, hlt, hgt, _, _⟩ := tmod_facts m 2 (by norm_num)
        exact Int.tmod_eq_zero_of_dvd (by omega)
  | refined =>
    have hm : -26 ≤ m := by
      rcases h with h | h
      · exact absurd rfl h
      · exact h
    rw [refined_char, refined_char]
    obtain ⟨hd1, hlt1, hgt1, hpos1, hneg1⟩ := tmod_facts (m + 9) 18 (by norm_num)
    obtain ⟨hd2, hlt2, hgt2, hpos2, hneg2⟩ :=
      tmod_facts (18 * Int.tdiv (m + 9) 18 + 9) 18 (by norm_num)
    omega
  | upRefined =>
    by_cases h0 : m = 0
    · subst h0; simp [round_metal]
    · by_cases hr : Int.tmod m 18 = 0
      · rw [upRefined_fix m hr]; exact upRefined_fix m hr
      · obtain ⟨hd, hlt, hgt, hpos, hneg⟩ := tmod_facts m 18 (by norm_num)
        by_cases hp : 0 < m
        · have hin : round_metal m Rounding.upRefined = m - (Int.tmod m 18 + -18) := by
            simp only [round_metal, ONE_REF, if_neg h0]
            simp [hr, hp]
          rw [hin]
          apply upRefined_fix
          exact Int.tmod_eq_zero_of_dvd (by omega)
        · have hin : round_metal m Rounding.upRefined = m - Int.tmod m 18 := by
            simp only [round_metal, ONE_REF, if_neg h0]
            simp [hr, hp]
          rw [hin]
          apply upRefined_fix
          exact Int.tmod_eq_zero_of_dvd (by omega)
  | downRefined =>
    by_cases h0 : m = 0
    · subst h0; simp [round_metal]
    · by_cases hr : Int.tmod m 18 = 0
      · rw [downRefined_fix m hr]; exact downRefined_fix m hr
      · obtain ⟨hd, hlt, hgt, hpos, hneg⟩ := tmod_facts m 18 (by norm_num)
        by_cases hp : 0 < m
        · have hin : round_metal m Rounding.downRefined = m - Int.tmod m 18 := by
            simp only [round_metal, ONE_REF, if_neg h0]
            simp [hr, hp]
          rw [hin]
          apply downRefined_fix
          exact Int.tmod_eq_zero_of_dvd (by omega)
        · have hin : round_metal m Rounding.downRefined = m - (Int.tmod m 18 + 18) := by
            simp only [round_metal, ONE_REF, if_neg h0]
            simp [hr, hp]
          rw [hin]
          apply downRefined_fix
          exact Int.tmod_eq_zero_of_dvd (by omega)

/-- Witness for the amended C1 at `m = 7` with the `Refined` policy. -/
theorem round_metal_idempotent_witness :
    round_metal (round_metal 7 Rounding.refined) Rounding.refined =
      round_metal 7 Rounding.refined :=
  round_metal_idempotent_away_from_negative_refined 7 Rounding.refined (Or.inr (by decide))

/-- `wrap32` is the identity on values already in the `i32` range. -/
theorem wrap32_eq_self (n : ℤ) (h1 : -2147483648 ≤ n) (h2 : n < 2147483648) : wrap32 n = n := by
  have h : Int.emod (n + 2147483648) 4294967296 = n + 2147483648 :=
    Int.emod_eq_of_lt (by omega) (by omega)
  unfold wrap32
  omega

/-- C3 (counterexample): at the top of the `i32` range the claim fails:
with the `UpScrap` policy the odd input `i32::MAX = 2147483647` makes
the code compute `metal + 1`, which overflows — in two's-complement
release semantics the result wraps to `i32::MIN = -2147483648` instead
of the mathematically correct `2147483648` (and debug builds panic on
the same addition). -/
theorem round_metal_i32_overflow_at_max :
    round_metal_i32 2147483647 Rounding.upScrap = -2147483648 ∧
      round_metal 2147483647 Rounding.upScrap = 2147483648 ∧
      ¬ (round_metal_i32 2147483647 Rounding.upScrap =
          round_metal 2147483647 Rounding.upScrap) := by decide

/-- C3 (amended): for every `i32` input at distance at least 18 from the
ends of the range (`-2^31 + 18 ≤ m ≤ 2^31 - 18`) and every policy, the
two's-complement computation `round_metal_i32` returns a result equal to
the exact integer rounding `round_metal`: no overflow, no panic, no
miscomputation.  Only inputs within 18 of the extremes can overflow. -/
theorem round_metal_i32_agrees_away_from_extremes (m : ℤ) (r : Rounding)
    (h1 : -2147483630 ≤ m) (h2 : m ≤ 2147483630) :
    round_metal_i32 m r = round_metal m r := by
  cases r with
  | none => rfl
  | upScrap =>
    by_cases h0 : m = 0
    · subst h0; rfl
    · by_cases hr : Int.tmod m 2 = 0
      · simp [round_metal, round_metal_i32, h0, hr]
      · have hw : wrap32 (m + 1) = m + 1 := wrap32_eq_self _ (by omega) (by omega)
        simp [round_metal, round_metal_i32, h0, hr, hw]
  | downScrap =>
    by_cases h0 : m = 0
    · subst h0; rfl
    · by_cases hr : Int.tmod m 2 = 0
      · simp [round_metal, round_metal_i32, h0, hr]
      · have hw : wrap32 (m - 1) = m - 1 := wrap32_eq_self _ (by omega) (by omega)
        simp [round_metal, round_metal_i32, h0, hr, hw]
  | refined =>
    by_cases h0 : m = 0
    · subst h0; rfl
    · have h9 : Int.tdiv (18 : ℤ) 2 = 9 := by decide
      obtain ⟨hd9, hlt9, hgt9, hpos9, hneg9⟩ := tmod_facts (m + 9) 18 (by norm_num)
      have hw1 : wrap32 (m + 9) = m + 9 := wrap32_eq_self _ (by omega) (by omega)
      have hw2 : wrap32 (m + 9 - Int.tmod (m + 9) 18) = m + 9 - Int.tmod (m + 9) 18 :=
        wrap32_eq_self _ (by omega) (by omega)
      simp only [round_metal, round_metal_i32, ONE_REF, h9, if_neg h0, hw1, hw2]
  | upRefined =>
    by_cases h0 : m = 0
    · subst h0; rfl
    · by_cases hr : Int.tmod m 18 = 0
      · simp only [round_metal, round_metal_i32, ONE_REF, if_neg h0]
        simp [hr]
      · obtain ⟨hd, hlt, hgt, hpos, hneg⟩ := tmod_facts m 18 (by norm_num)
        by_cases hp : 0 < m
        · have hwi : wrap32 (Int.tmod m 18 + -18) = Int.tmod m 18 + -18 :=
            wrap32_eq_self _ (by omega) (by omega)
          have hwo : wrap32 (m - (Int.tmod m 18 + -18)) = m - (Int.tmod m 18 + -18) :=
            wrap32_eq_self _ (by omega) (by omega)
          simp only [round_metal, round_metal_i32, ONE_REF, if_neg h0, hwi, hwo]
          simp [hr, hp]
        · have hwo : wrap32 (m - Int.tmod m 18) = m - Int.tmod m 18 :=
            wrap32_eq_self _ (by omega) (by omega)
          simp only [round_metal, round_metal_i32, ONE_REF, if_neg h0, hwo]
          simp [hr, hp]
  | downRefined =>
    by_cases h0 : m = 0
    · subst h0; rfl
    · by_cases hr : Int.tmod m 18 = 0
      · simp only [round_metal, round_metal_i32, ONE_REF, if_neg h0]
        simp [hr]
      · obtain ⟨hd, hlt, hgt, hpos, hneg⟩ := tmod_facts m 18 (by norm_num)
        by_cases hp : 0 < m
        · have hwo : wrap32 (m - Int.tmod m 18) = m - Int.tmod m 18 :=
            wrap32_eq_self _ (by omega) (by omega)
          simp only [round_metal, round_metal_i32, ONE_REF, if_neg h0, hwo]
          simp [hr, hp]
        · have hwi : wrap32 (Int.tmod m 18 + 18) = Int.tmod m 18 + 18 :=
            wrap32_eq_self _ (by omega) (by omega)
          have hwo : wrap32 (m - (Int.tmod m 18 + 18)) = m - (Int.tmod m 18 + 18) :=
            wrap32_eq_self _ (by omega) (by omega)
          simp only [round_metal, round_metal_i32, ONE_REF, if_neg h0, hwi, hwo]
          simp [hr, hp]

/-- Witness for the amended C3 at `m = 1000` with the `Refined`
policy. -/
theorem round_metal_i32_agrees_witness :
    round_metal_i32 1000 Rounding.refined = round_metal 1000 Rounding.refined :=
  round_metal_i32_agrees_away_from_extremes 1000 Rounding.refined (by decide) (by decide)

/-- C8: the two literal doctest pairs of `helpers.rs` hold exactly:
`get_metal_float 6` equals the `f32` literal `0.33` (the binary32 value
nearest `33/100`, `11072963 * 2 ^ (-25)`), and `get_metal_from_float`
of that literal equals `scrap 3 = 6`.  No round-trip law is asserted:
the pairs are deliberately asymmetric (truncation vs rounding). -/
theorem metal_float_doctest_pairs :
    get_metal_float 6 = roundFrac 33 100 0 ∧
      get_metal_from_float (roundFrac 33 100 0) = scrap 3 ∧ scrap 3 = 6 := by
  refine ⟨by decide, by decide, by decide⟩

/-- C9: the deserialization adapter computes the scaled metal integer by
exactly the `get_metal_from_float` rule on every successfully decoded
float, and it propagates any decode error of the underlying float
decoding unchanged. -/
theorem metal_deserializer_refines_from_float {E : Type} :
    (∀ f : F32,
      metal_deserializer (Except.ok f : Except E F32) =
        Except.ok (get_metal_from_float f)) ∧
    (∀ e : E,
      metal_deserializer (Except.error e : Except E F32) = Except.error e) :=
  ⟨fun _ => rfl, fun _ => rfl⟩

/-- C2: parsing `""` fails with the `INVALID_CURRENCIES_FORMAT` error
value (in the source this single constant is both the malformed-element
and the unknown-symbol error; the empty string trips the element-shape
check, whose value coincides with the unknown-symbol error), `"5 gems"`
fails with the same value through the unknown-symbol arm, and
`"abc ref"` fails with the `UnparsableMetalCount` error. -/
theorem parse_error_examples :
    parse_from_string (0 : Int) parse_i32 ("") =
        Except.error ParseError.invalidCurrenciesFormat ∧
      parse_from_string (0 : Int) parse_i32 ("5 gems") =
        Except.error ParseError.invalidCurrenciesFormat ∧
      parse_from_string (0 : Int) parse_i32 ("abc ref") =
        Except.error ParseError.errorParsingMetalCount := by
  refine ⟨by decide, by decide, by decide⟩

/-- C5 (counterexample): a malformed element (`"x"`, one token) and an
unrecognized symbol (`"5 gems"`) produce the *same* error value — both
`return Err(INVALID_CURRENCIES_FORMAT)` in the source — so the
malformed-element error is not distinct from the unknown-symbol
error. -/
theorem malformed_and_unknown_symbol_same_error :
    parse_from_string (0 : Int) parse_i32 ("x") =
        Except.error ParseError.invalidCurrenciesFormat ∧
      parse_from_string (0 : Int) parse_i32 ("5 gems") =
        Except.error ParseError.invalidCurrenciesFormat := by
  refine ⟨by decide, by decide⟩

/-- C5 (amended): the parser has exactly four pairwise-distinct error
values, and the five spec-level error kinds map onto them with the
malformed-element and unknown-symbol kinds sharing the single
`INVALID_CURRENCIES_FORMAT` value; the unparsable-key-count,
unparsable-metal-count and no-currency kinds each have their own
value. -/
theorem parser_error_values_four_distinct :
    parse_from_string (0 : Int) parse_i32 ("1 2 3") =
        Except.error ParseError.invalidCurrenciesFormat ∧
      parse_from_string (0 : Int) parse_i32 ("7 gems") =
        Except.error ParseError.invalidCurrenciesFormat ∧
      parse_from_string (0 : Int) parse_i32 ("z keys") =
        Except.error ParseError.errorParsingKeyCount ∧
      parse_from_string (0 : Int) parse_i32 ("z ref") =
        Except.error ParseError.errorParsingMetalCount ∧
      parse_from_string (0 : Int) parse_i32 ("0 keys") =
        Except.error ParseError.noCurrenciesParsed ∧
      List.Pairwise (fun a b => a ≠ b)
        [ParseError.invalidCurrenciesFormat, ParseError.errorParsingKeyCount,
          ParseError.errorParsingMetalCount, ParseError.noCurrenciesParsed] := by
  refine ⟨by decide, by decide, by decide, by decide, by decide, by decide⟩

/-!  ## Structural facts about the parser loop -/

/-- A single loop iteration never produces the no-currency error: that
error is only issued after the loop. -/
theorem processElement_ne_noCurrencies {T : Type} (fromStr : List Char → Option T)
    (k : T) (m : Int) (e : List Char) :
    processElement fromStr k m e ≠ Except.error ParseError.noCurrenciesParsed := by
  unfold processElement
  intro hc
  split at hc
  · split_ifs at hc
    · split at hc <;> simp_all
    · split at hc <;> simp_all
    · simp at hc
  · simp at hc

/-- The parser loop never produces the no-currency error. -/
theorem parseElems_ne_noCurrencies {T : Type} (fromStr : List Char → Option T) :
    ∀ (es : List (List Char)) (k : T) (m : Int),
      parseElems fromStr k m es ≠ Except.error ParseError.noCurrenciesParsed := by
  intro es
  induction es with
  | nil => intro k m; simp [parseElems]
  | cons e rest ih =>
    intro k m
    simp only [parseElems]
    cases hpe : processElement fromStr k m e with
    | ok p =>
      cases p with
      | mk k1 m1 => exact ih k1 m1
    | error err =>
      intro hc
      apply processElement_ne_noCurrencies fromStr k m e
      rw [hpe]
      exact hc

/-- C4: the parser returns the `NoCurrencyParsed` error exactly when the
loop over all elements completes with both accumulators still at their
defaults (`Except.ok (default, 0)`), and every successful parse returns
a pair in which at least one accumulator differs from its default. -/
theorem no_currencies_iff_default_accumulators {T : Type} [DecidableEq T]
    (default : T) (fromStr : List Char → Option T) (s : String) :
    (parse_from_string default fromStr s = Except.error ParseError.noCurrenciesParsed ↔
      parseElems fromStr default 0 (splitOnCharList (", ".data) s.data) =
        Except.ok (default, 0)) ∧
    (∀ (k : T) (m : Int), parse_from_string default fromStr s = Except.ok (k, m) →
      ¬ (k = default ∧ m = 0)) := by
  constructor
  · unfold parse_from_string
    cases hpe : parseElems fromStr default 0 (splitOnCharList (", ".data) s.data) with
    | ok p =>
      cases p with
      | mk k1 m1 =>
        by_cases hd : k1 = default ∧ m1 = 0
        · obtain ⟨hk, hm⟩ := hd
          subst hk; subst hm
          simp
        · constructor
          · intro hx
            simp [hd] at hx
          · intro hx
            simp at hx
            exact absurd hx hd
    | error err =>
      have hne := parseElems_ne_noCurrencies fromStr
        (splitOnCharList (", ".data) s.data) default 0
      rw [hpe] at hne
      exact ⟨fun hx => absurd hx hne, fun hx => Except.noConfusion hx⟩
  · intro k m h
    unfold parse_from_string at h
    cases hpe : parseElems fromStr default 0 (splitOnCharList (", ".data) s.data) with
    | error err => rw [hpe] at h; exact absurd h (by simp)
    | ok p =>
      rw [hpe] at h
      cases p with
      | mk k1 m1 =>
        by_cases hd : k1 = default ∧ m1 = 0
        · simp [hd] at h
        · simp [hd] at h
          obtain ⟨h1, h2⟩ := h
          subst h1; subst h2
          exact hd

/-- Witness for C4 at `"0 ref"`: the loop parses one metal element whose
value is zero, both accumulators end at their defaults, and the parser
reports `NoCurrencyParsed`. -/
theorem no_currencies_witness :
    parse_from_string (0 : Int) parse_i32 ("0 ref") =
      Except.error ParseError.noCurrenciesParsed :=
  (no_currencies_iff_default_accumulators 0 parse_i32 ("0 ref")).1.mpr (by decide)

/-- Prepending an element shifts the defaulted last element. -/
theorem getLastD_cons {α : Type} :
    ∀ (l : List α) (a d : α), ((a :: l).getLast?).getD d = (l.getLast?).getD a
  | [], _, _ => rfl
  | b :: t, a, d => by
    rw [List.getLast?_cons_cons]
    rcases h : (b :: t).getLast? with _ | x
    · simp at h
    · rfl

/-- A successful loop iteration either sets the key accumulator from the
element (a key element) or sets the metal accumulator from the element
(a metal element), leaving the other accumulator untouched. -/
theorem processElement_cases {T : Type} (fromStr : List Char → Option T)
    (k0 : T) (m0 : Int) (e : List Char) (k : T) (m : Int)
    (h : processElement fromStr k0 m0 e = Except.ok (k, m)) :
    (∃ v, elemKey fromStr e = some v ∧ k = v ∧ m = m0 ∧ elemMetal e = Option.none) ∨
    (∃ v, elemMetal e = some v ∧ m = v ∧ k = k0 ∧ elemKey fromStr e = Option.none) := by
  unfold processElement at h
  unfold elemKey elemMetal
  cases hsp : splitOnCharList (" ".data) e with
  | nil => rw [hsp] at h; simp at h
  | cons a t =>
    cases t with
    | nil => rw [hsp] at h; simp at h
    | cons b t2 =>
      cases t2 with
      | cons c t3 => rw [hsp] at h; simp at h
      | nil =>
        rw [hsp] at h
        by_cases hb : b = KEY_SYMBOL ∨ b = KEYS_SYMBOL
        · have hbm : ¬ b = METAL_SYMBOL := by
            rcases hb with rfl | rfl <;> decide
          simp only [eq_true hb, if_true] at h
          cases hf : fromStr a with
          | none => rw [hf] at h; simp at h
          | some v =>
            rw [hf] at h
            simp only [Except.ok.injEq, Prod.mk.injEq] at h
            obtain ⟨hk, hm⟩ := h
            left
            refine ⟨v, ?_, hk.symm, hm.symm, ?_⟩
            · simp [eq_true hb, hf]
            · simp [eq_false hbm]
        · by_cases hm2 : b = METAL_SYMBOL
          · simp only [eq_false hb, if_false, eq_true hm2, if_true] at h
            cases hpf : parse_f32 a with
            | none => rw [hpf] at h; simp at h
            | some v =>
              rw [hpf] at h
              simp only [Except.ok.injEq, Prod.mk.injEq] at h
              obtain ⟨hk, hm⟩ := h
              right
              refine ⟨get_metal_from_float v, ?_, hm.symm, hk.symm, ?_⟩
              · simp [eq_true hm2, eq_false hb, hpf]
              · simp [eq_false hb]
          · simp only [eq_false hb, eq_false hm2, if_false] at h
            simp at h

/-- After a successful run of the parser loop, each accumulator holds
the value contributed by the last matching element, or its initial value
when no element matched. -/
theorem parseElems_last {T : Type} (fromStr : List Char → Option T) :
    ∀ (es : List (List Char)) (k0 : T) (m0 : Int) (k : T) (m : Int),
      parseElems fromStr k0 m0 es = Except.ok (k, m) →
      m = ((es.filterMap elemMetal).getLast?).getD m0 ∧
      k = ((es.filterMap (elemKey fromStr)).getLast?).getD k0 := by
  intro es
  induction es with
  | nil =>
    intro k0 m0 k m h
    simp only [parseElems, Except.ok.injEq, Prod.mk.injEq] at h
    obtain ⟨hk, hm⟩ := h
    subst hk; subst hm
    simp
  | cons e rest ih =>
    intro k0 m0 k m h
    simp only [parseElems] at h
    cases hpe : processElement fromStr k0 m0 e with
    | error err => rw [hpe] at h; simp at h
    | ok p =>
      rw [hpe] at h
      cases p with
      | mk k1 m1 =>
        obtain ⟨hm', hk'⟩ := ih k1 m1 k m h
        rcases processElement_cases fromStr k0 m0 e k1 m1 hpe with
          ⟨v, hek, hk1, hm1, hem⟩ | ⟨v, hem, hm1, hk1, hek⟩
        · constructor
          · rw [hm', hm1]
            simp [List.filterMap_cons, hem]
          · rw [hk', hk1]
            simp only [List.filterMap_cons, hek]
            rw [getLastD_cons]
        · constructor
          · rw [hm', hm1]
            simp only [List.filterMap_cons, hem]
            rw [getLastD_cons]
          · rw [hk', hk1]
            simp [List.filterMap_cons, hek]

/-- C10: whenever the parser succeeds, the returned metal value equals
the value of the last element that set the metal accumulator (or 0 when
none did), and the returned key count equals the value of the last
element that set the key accumulator (or the default when none did) —
each matching element overwrites the accumulator, so with duplicate
denominations the last occurrence wins rather than a sum being
formed. -/
theorem parser_last_occurrence_wins {T : Type} [DecidableEq T]
    (default : T) (fromStr : List Char → Option T) (s : String) (k : T) (m : Int)
    (h : parse_from_string default fromStr s = Except.ok (k, m)) :
    m = (((splitOnCharList (", ".data) s.data).filterMap elemMetal).getLast?).getD 0 ∧
    k = (((splitOnCharList (", ".data) s.data).filterMap
          (elemKey fromStr)).getLast?).getD default := by
  unfold parse_from_string at h
  cases hpe : parseElems fromStr default 0 (splitOnCharList (", ".data) s.data) with
  | error err => rw [hpe] at h; simp at h
  | ok p =>
    rw [hpe] at h
    cases p with
    | mk k1 m1 =>
      by_cases hd : k1 = default ∧ m1 = 0
      · simp [hd] at h
      · simp [hd] at h
        obtain ⟨h1, h2⟩ := h
        subst h1; subst h2
        exact parseElems_last fromStr _ default 0 k1 m1 hpe

/-- Witness for C10 at `"1 ref, 2 ref"`: the parse succeeds with metal
36 (`fromFloat 2.0`), the value of the last `ref` element, not the sum
54. -/
theorem parser_last_occurrence_witness :
    (36 : Int) =
      ((((splitOnCharList (", ".data) ("1 ref, 2 ref" : String).data)).filterMap
          elemMetal).getLast?).getD 0 :=
  (parser_last_occurrence_wins (0 : Int) parse_i32 ("1 ref, 2 ref") 0 36 (by decide)).1
